import Mathlib

/-!
Shallow embedding of `lib/cuckoo/core/processor.py` (class `Processor`):
the analysis-results processing engine of Cuckoo Sandbox.  Python dynamic
values are modelled by `Value`, Python exceptions by `PyExc` carried in
`Except`, and the ambient logger by an explicit list of `LogEvent`s
(structured: constructor = format string, arguments = the interpolated
data).  External collaborators (`list_plugins`, `Config`, `LocalDict`,
`CUCKOO_VERSION`) are modelled as parameters: the registry is a pair of
descriptor lists, a module instance is a record whose effectful phases
(`__init__`, `set_path`, `Config(...)`, `run`) are `Except` values, and the
engine version string is an argument of `Processor.run`.
-/

/-- Severity levels of the `logging` calls that appear in `processor.py`
(`log.debug`, `log.warning`, `log.exception` — the latter logs at error
level). -/
inductive LogLevel where
  | debug
  | warning
  | error
deriving DecidableEq, Repr

/-- The log calls of `processor.py`, one constructor per call site, carrying
the interpolated arguments. -/
inductive LogEvent where
  /-- `log.debug("Executed processing module ...")` in `_run_processing`. -/
  | debugExecutedModule (name path : String)
  /-- `log.warning("The processing module ... returned the following error: ...")`. -/
  | warnProcessingError (name msg : String)
  /-- `log.exception("Failed to run the processing module ...")`. -/
  | errorProcessingFailed (name : String)
  /-- `log.debug("Running signature ...")` in `_run_signature`. -/
  | debugRunningSignature (name : String)
  /-- `log.debug("You are running an older incompatible version ...")`. -/
  | debugOlderVersion (name minimum : String)
  /-- `log.debug("Wrong minor version number in signature ...")`. -/
  | debugWrongMinor (name : String)
  /-- `log.debug("You are running a newer incompatible version ...")`. -/
  | debugNewerVersion (name maximum : String)
  /-- `log.debug("Wrong major version number in signature ...")`. -/
  | debugWrongMajor (name : String)
  /-- `log.debug("Analysis at ... matched signature ...")`. -/
  | debugMatched (path name : String)
  /-- `log.exception("Failed to run signature ...")`. -/
  | errorSignatureFailed (name : String)
deriving DecidableEq, Repr

/-- Severity at which each call site logs. -/
def LogEvent.level : LogEvent → LogLevel
  | .debugExecutedModule _ _ => .debug
  | .warnProcessingError _ _ => .warning
  | .errorProcessingFailed _ => .error
  | .debugRunningSignature _ => .debug
  | .debugOlderVersion _ _ => .debug
  | .debugWrongMinor _ => .debug
  | .debugNewerVersion _ _ => .debug
  | .debugWrongMajor _ => .debug
  | .debugMatched _ _ => .debug
  | .errorSignatureFailed _ => .error

/-- Python exceptions relevant to `processor.py`: the declared recoverable
`CuckooProcessingError` and any other `Exception`. -/
inductive PyExc where
  | cuckooProcessingError (msg : String)
  | other (msg : String)
deriving DecidableEq, Repr

/-- Python values as far as truthiness and equality matter here. -/
inductive Value where
  | pyNone
  | pyBool (b : Bool)
  | pyInt (n : Int)
  | pyStr (s : String)
  | pyList (l : List Value)

/-- Python truthiness of a `Value` (`if data:`). -/
def Value.truthy : Value → Bool
  | .pyNone => false
  | .pyBool b => b
  | .pyInt n => n != 0
  | .pyStr s => s != ""
  | .pyList l => !l.isEmpty

/-- The record the signature runner builds on a match:
`{"name": ..., "description": ..., "severity": ..., "references": ...,
"data": ..., "alert": ...}`. -/
structure MatchRecord where
  name : String
  description : String
  severity : Int
  references : List String
  data : Value
  alert : Bool

/-- An entry of the results dictionary: either a module fragment value or
the final list of matched signatures stored under `"signatures"`. -/
inductive Entry where
  | val (v : Value)
  | sigs (l : List MatchRecord)

/-- The "fat dict": the shared results container, a string-keyed
dictionary in insertion order with unique keys. -/
def RDoc := List (String × Entry)

/-- `results[k] = v` on a Python dict: overwrite in place if the key is
present, otherwise append.  `results.update({k: v})` on a single-entry
dict is the same operation. -/
def setKey : RDoc → String → Entry → RDoc
  | [], k, v => [(k, v)]
  | (k', v') :: rest, k, v =>
      if k' = k then (k, v) :: rest else (k', v') :: setKey rest k v

/-- Dictionary lookup `results[k]` (keys are unique when the dict is built
from `[]` by `setKey`). -/
def getKey : RDoc → String → Option Entry
  | [], _ => Option.none
  | (k', v') :: rest, k => if k' = k then some v' else getKey rest k

/-- `s.split("-")[0]`: the prefix of `s` before the first `-` (the whole
string when there is no `-`). -/
def splitDash (s : String) : String := String.mk (s.data.takeWhile (fun c => c != '-'))

/-- The value of an ASCII digit, the character class `\d` of the
`StrictVersion` regex (Python 2 `re` without `re.UNICODE`): codepoints 48
to 57. -/
def digitVal (c : Char) : Option Nat :=
  if 48 ≤ c.toNat ∧ c.toNat ≤ 57 then some (c.toNat - 48) else Option.none

/-- Accumulate the decimal value of a digit string; fails on the first
non-digit character. -/
def digitsToNatAux : List Char → Nat → Option Nat
  | [], acc => some acc
  | c :: cs, acc =>
    match digitVal c with
    | some dg => digitsToNatAux cs (acc * 10 + dg)
    | Option.none => Option.none

/-- `int(cs)` on a `\d+` match: a nonempty, all-digit string. -/
def digitsToNat : List Char → Option Nat
  | [] => Option.none
  | c :: cs => digitsToNatAux (c :: cs) 0

/-- Python `str.split(sep)` for a one-character separator, on char lists:
`"a.b".split(".") = ["a", "b"]`, `"".split(".") = [""]`. -/
def splitOnChar (sep : Char) : List Char → List (List Char)
  | [] => [[]]
  | c :: cs =>
    if c = sep then [] :: splitOnChar sep cs
    else
      match splitOnChar sep cs with
      | [] => [[c]]
      | g :: gs => (c :: g) :: gs

/-- Split a char list into its leading digits and the remainder. -/
def takeDigits : List Char → List Char × List Char
  | [] => ([], [])
  | c :: cs =>
    match digitVal c with
    | some _ =>
      let (ds, rest) := takeDigits cs
      (c :: ds, rest)
    | Option.none => ([], c :: cs)

/-- `distutils.version.StrictVersion`: a parsed strict version
`major.minor[.patch][ab]N`; `patch` defaults to `0`, `pre` holds the
optional prerelease tag (letter and number). -/
structure SV where
  major : Nat
  minor : Nat
  patch : Nat
  pre : Option (Char × Nat)
deriving DecidableEq, Repr

/-- Parse the optional prerelease suffix `([ab](\d+))?` of the StrictVersion
regex: empty means no prerelease, otherwise a letter `a` or `b` followed by
a nonempty digit string; anything else fails the whole parse. -/
def parsePre : List Char → Option (Option (Char × Nat))
  | [] => some Option.none
  | c :: rest =>
      if c = 'a' ∨ c = 'b' then
        (digitsToNat rest).map (fun n => some (c, n))
      else Option.none

/-- Parse a numeric component optionally followed by a prerelease suffix,
`(\d+)([ab](\d+))?`-style: leading digits (nonempty), then `parsePre` on
the remainder. -/
def splitNumPre (cs : List Char) : Option (Nat × Option (Char × Nat)) :=
  let (ds, rest) := takeDigits cs
  match digitsToNat ds with
  | Option.none => Option.none
  | some n => (parsePre rest).map (fun p => (n, p))

/-- `StrictVersion(s)`: parse against the regex
`^(\d+) \. (\d+) (\. (\d+))? ([ab](\d+))?$` (two or three dotted
components, the major and minor all digits, the last numeric component
optionally carrying a prerelease tag); `Option.none` models the
`ValueError` raised on a non-matching string. -/
def parseSV (s : String) : Option SV :=
  match splitOnChar '.' s.data with
  | [a, b] => do
      let major ← digitsToNat a
      let (minor, pre) ← splitNumPre b
      pure ⟨major, minor, 0, pre⟩
  | [a, b, c] => do
      let major ← digitsToNat a
      let minor ← digitsToNat b
      let (patch, pre) ← splitNumPre c
      pure ⟨major, minor, patch, pre⟩
  | _ => Option.none

/-- `StrictVersion.__lt__`: compare the numeric triples lexicographically;
on equal triples a release (no prerelease) is greater than any prerelease,
and prereleases compare by letter then number. -/
def svLt (x y : SV) : Bool :=
  if x.major ≠ y.major then x.major < y.major
  else if x.minor ≠ y.minor then x.minor < y.minor
  else if x.patch ≠ y.patch then x.patch < y.patch
  else match x.pre, y.pre with
    | Option.none, _ => false
    | some _, Option.none => true
    | some (c1, n1), some (c2, n2) => c1 < c2 ∨ (c1 = c2 ∧ n1 < n2)

/-- A processing-module class as `_run_processing` uses it, duck-typed: the
effectful phases `module()` (instantiation), `set_path(...)` and
`Config(current.conf_path)` may each raise; `order` and `key` are the class
attributes used for sequencing and for keying the fragment; `enabled` is
the configuration flag; `run` is the analysis body, returning data or
raising. -/
structure ProcModule where
  name : String
  order : Int
  init : Except PyExc Unit
  setPath : Except PyExc Unit
  loadCfg : Except PyExc Unit
  enabled : Bool
  key : String
  run : Except PyExc Value

/-- A signature class as `_run_signature` uses it: instantiation
`signature(LocalDict(results))` may raise; `minimum`/`maximum` are the
declared version bounds (`""` models an absent/falsy bound, as tested by
`if current.minimum:`); the remaining fields are the metadata snapshotted
into a `MatchRecord`; `run` is the match body over the merged results. -/
structure SigDescr where
  name : String
  init : Except PyExc Unit
  enabled : Bool
  minimum : String
  maximum : String
  severity : Int
  description : String
  references : List String
  data : Value
  alert : Bool
  run : RDoc → Except PyExc Value

/-- The external plugin registry (`list_plugins`): the descriptor lists for
`group="processing"` and `group="signatures"`, in registry-supplied order. -/
structure Registry where
  processing : List ProcModule
  signatures : List SigDescr

/-- `Processor._run_processing(module)`.  Instantiation, `set_path` and the
`Config` load happen before the `try` block, so an exception in any of them
propagates (`Except.error`).  Inside the `try`, a `CuckooProcessingError`
from the module body is logged at warning and swallowed, any other
exception is logged by `log.exception` and swallowed; on success the
single-entry fragment `{current.key: data}` is returned. -/
def runProcessing (path : String) (m : ProcModule) :
    Except PyExc (Option (String × Value) × List LogEvent) :=
  match m.init with
  | .error e => .error e
  | .ok _ =>
  match m.setPath with
  | .error e => .error e
  | .ok _ =>
  match m.loadCfg with
  | .error e => .error e
  | .ok _ =>
  if m.enabled = false then .ok (Option.none, []) else
  match m.run with
  | .ok data => .ok (some (m.key, data), [.debugExecutedModule m.name path])
  | .error (.cuckooProcessingError msg) =>
      .ok (Option.none, [.warnProcessingError m.name msg])
  | .error (.other _) => .ok (Option.none, [.errorProcessingFailed m.name])

/-- The minimum-version gate of `_run_signature`, on the already-stripped
running version `ver`.  `some lg` means "skip, logging `lg`": either the
running Cuckoo is older than `current.minimum.split("-")[0]`, or one of the
two `StrictVersion` constructions raised `ValueError` (modelled as a failed
parse) and the `except ValueError` branch skips.  `Option.none` means the
gate is passed (including the `if current.minimum:` falsy case). -/
def minGateSkip (ver : String) (s : SigDescr) : Option LogEvent :=
  if s.minimum ≠ "" then
    match parseSV ver, parseSV (splitDash s.minimum) with
    | some v, some m =>
        if svLt v m then some (.debugOlderVersion s.name s.minimum)
        else Option.none
    | _, _ => some (.debugWrongMinor s.name)
  else Option.none

/-- The maximum-version gate of `_run_signature`, symmetric to
`minGateSkip`: skip when the running version is strictly newer than
`current.maximum.split("-")[0]`, or when either parse fails. -/
def maxGateSkip (ver : String) (s : SigDescr) : Option LogEvent :=
  if s.maximum ≠ "" then
    match parseSV ver, parseSV (splitDash s.maximum) with
    | some v, some m =>
        if svLt m v then some (.debugNewerVersion s.name s.maximum)
        else Option.none
    | _, _ => some (.debugWrongMajor s.name)
  else Option.none

/-- The final `try` block of `_run_signature`: run the match body against
the merged results; a truthy result is snapshotted into a `MatchRecord`
(and logged), a falsy result returns nothing, and any exception is logged
by `log.exception` and also returns nothing.  (The leading
`Running signature` debug entry of `_run_signature` is included here.) -/
def sigEval (path : String) (s : SigDescr) (results : RDoc) :
    Except PyExc (Option MatchRecord × List LogEvent) :=
  let lg0 : List LogEvent := [.debugRunningSignature s.name]
  match s.run results with
  | .ok v =>
      if v.truthy then
        .ok (some ⟨s.name, s.description, s.severity, s.references, s.data, s.alert⟩,
             lg0 ++ [.debugMatched path s.name])
      else .ok (Option.none, lg0)
  | .error _ => .ok (Option.none, lg0 ++ [.errorSignatureFailed s.name])

/-- `Processor._run_signature(signature, results)`.  Instantiation
(`signature(LocalDict(results))`) happens outside any `try`, so an
exception there propagates.  Then: log `Running signature`; enabled gate;
`version = CUCKOO_VERSION.split("-")[0]`; minimum gate; maximum gate;
finally the match body runs (`sigEval`) under a `try` that turns any
exception into a skip. -/
def runSignature (path version : String) (s : SigDescr) (results : RDoc) :
    Except PyExc (Option MatchRecord × List LogEvent) :=
  match s.init with
  | .error e => .error e
  | .ok _ =>
  let lg0 : List LogEvent := [.debugRunningSignature s.name]
  if s.enabled = false then .ok (Option.none, lg0) else
  let ver := splitDash version
  match minGateSkip ver s with
  | some lg => .ok (Option.none, lg0 ++ [lg])
  | Option.none =>
  match maxGateSkip ver s with
  | some lg => .ok (Option.none, lg0 ++ [lg])
  | Option.none => sigEval path s results

/-- `a.order ≤ b.order` resp. `a.severity ≤ b.severity` as a named relation:
comparison by an integer key, the shape of both `sort(key=...)` calls in
`Processor.run`. -/
def keyLE {α : Type} (f : α → Int) (a b : α) : Prop := f a ≤ f b

instance {α : Type} (f : α → Int) : DecidableRel (keyLE f) :=
  fun a b => inferInstanceAs (Decidable (f a ≤ f b))

instance {α : Type} (f : α → Int) : IsTotal α (keyLE f) :=
  ⟨fun a b => Int.le_total (f a) (f b)⟩

instance {α : Type} (f : α → Int) : IsTrans α (keyLE f) :=
  ⟨fun _ _ _ h1 h2 => Int.le_trans h1 h2⟩

/-- The processing loop of `Processor.run`: fold `_run_processing` over the
(already sorted) module list, merging each returned fragment into the
results dict — `if result: results.update(result)` (the fragment, when not
`None`, is a nonempty dict, hence truthy).  An uncaught exception aborts
the whole run. -/
def runMods (path : String) : List ProcModule → RDoc → List LogEvent →
    Except PyExc (RDoc × List LogEvent)
  | [], results, logs => .ok (results, logs)
  | m :: rest, results, logs =>
    match runProcessing path m with
    | .error e => .error e
    | .ok (fragment, lg) =>
      match fragment with
      | some (k, v) => runMods path rest (setKey results k (.val v)) (logs ++ lg)
      | Option.none => runMods path rest results (logs ++ lg)

/-- The signature loop of `Processor.run`: fold `_run_signature` over the
registry-supplied signature list, appending each returned match —
`if match: sigs.append(match)` (the match, when not `None`, is a nonempty
dict, hence truthy).  An uncaught exception aborts the whole run. -/
def runSigs (path version : String) (results : RDoc) :
    List SigDescr → List MatchRecord → List LogEvent →
    Except PyExc (List MatchRecord × List LogEvent)
  | [], sigs, logs => .ok (sigs, logs)
  | s :: rest, sigs, logs =>
    match runSignature path version s results with
    | .error e => .error e
    | .ok (matched, lg) =>
      match matched with
      | some m => runSigs path version results rest (sigs ++ [m]) (logs ++ lg)
      | Option.none => runSigs path version results rest sigs (logs ++ lg)

/-- The sorted module sequence of `Processor.run`:
`modules_list.sort(key=lambda module: module.order)`.  Python's `sort` is a
stable sort by the key; `List.insertionSort` with the non-strict `keyLE`
relation computes exactly that stable sort. -/
def sortedModules (mods : List ProcModule) : List ProcModule :=
  List.insertionSort (keyLE ProcModule.order) mods

/-- `sigs.sort(key=lambda key: key["severity"])`, again a stable sort. -/
def sortedSigs (sigs : List MatchRecord) : List MatchRecord :=
  List.insertionSort (keyLE MatchRecord.severity) sigs

/-- `Processor.run()`: start from the empty results dict, sort the
processing modules by `order` and run them all, then run every signature
against the merged results, stable-sort the collected matches by severity
and store them under `"signatures"`, then return the fat dict.
`version` stands for the external `CUCKOO_VERSION` constant and `path` for
`self.analysis_path`; `reg` supplies what `list_plugins` returns. -/
def Processor.run (path version : String) (reg : Registry) :
    Except PyExc (RDoc × List LogEvent) :=
  match runMods path (sortedModules reg.processing) [] [] with
  | .error e => .error e
  | .ok (results, logs1) =>
    match runSigs path version results reg.signatures [] [] with
    | .error e => .error e
    | .ok (sigs, logs2) =>
      .ok (setKey results "signatures" (.sigs (sortedSigs sigs)), logs1 ++ logs2)

/-- Replace only the version bounds of a signature descriptor, leaving
every other field (name, match body, metadata, ...) untouched.  Used to
state that a gate's behaviour depends only on the bounds. -/
def setBounds (s : SigDescr) (lo hi : String) : SigDescr :=
  ⟨s.name, s.init, s.enabled, lo, hi, s.severity, s.description,
   s.references, s.data, s.alert, s.run⟩

/-- Stated from the spec, for counting matches: the signature passed the
enabled gate and both version gates and its match logic returned a
positive (truthy) result without raising. -/
def passesGatesAndMatches (version : String) (d : RDoc) (s : SigDescr) : Bool :=
  s.enabled && (minGateSkip (splitDash version) s).isNone &&
    (maxGateSkip (splitDash version) s).isNone &&
    (match s.run d with | .ok v => v.truthy | .error _ => false)

/-- A concrete processing module whose instantiation (`module()`) raises a
plain exception. -/
def badInitModule : ProcModule :=
  ⟨"BadInit", 0, .error (.other "boom"), .ok (), .ok (), true, "k", .ok .pyNone⟩

/-- A concrete well-behaved signature: enabled, no version bounds,
severity 3, match body returns `True`. -/
def baseSig : SigDescr :=
  ⟨"S", .ok (), true, "", "", 3, "desc", [], .pyNone, false,
   fun _ => .ok (.pyBool true)⟩

/-- A concrete well-behaved module with `order` 1 writing key `shared`. -/
def modW1 : ProcModule :=
  ⟨"M1", 1, .ok (), .ok (), .ok (), true, "shared", .ok (.pyInt 1)⟩

/-- A concrete well-behaved module with `order` 2 writing key `shared`. -/
def modW2 : ProcModule :=
  ⟨"M2", 2, .ok (), .ok (), .ok (), true, "shared", .ok (.pyInt 2)⟩

/-- A concrete module whose body raises `CuckooProcessingError`. -/
def modWerr : ProcModule :=
  ⟨"ME", 1, .ok (), .ok (), .ok (), true, "ke",
   .error (.cuckooProcessingError "bad input")⟩

/-- A concrete module whose body succeeds returning the falsy `None`. -/
def modWnone : ProcModule :=
  ⟨"MN", 1, .ok (), .ok (), .ok (), true, "kn", .ok .pyNone⟩

/-- Looking up a key right after writing it yields the written entry. -/
theorem getKey_setKey_self (d : RDoc) (k : String) (e : Entry) :
    getKey (setKey d k e) k = some e := by
  induction d with
  | nil => simp [setKey, getKey]
  | cons hd tl ih =>
    obtain ⟨k', v'⟩ := hd
    by_cases hk : k' = k
    · simp [setKey, getKey, hk]
    · simp [setKey, getKey, hk, ih]

/-- Writing one key leaves every other key's entry unchanged. -/
theorem getKey_setKey_other (d : RDoc) (k k2 : String) (e : Entry)
    (hne : ¬ (k = k2)) : getKey (setKey d k e) k2 = getKey d k2 := by
  induction d with
  | nil => simp [setKey, getKey, hne]
  | cons hd tl ih =>
    obtain ⟨k', v'⟩ := hd
    by_cases hk : k' = k
    · subst hk
      simp [setKey, getKey, hne]
    · have hne2 : ¬ (k2 = k) := fun h => hne h.symm
      by_cases hk2 : k' = k2 <;> simp [setKey, getKey, hk, hk2, hne2, ih]

/-- Inserting an element with `List.orderedInsert` under a `keyLE` relation
commutes with filtering for one key value: the inserted element lands in
front of the elements with the same key (every element it jumps over has a
strictly smaller key). -/
theorem filter_orderedInsert_eqkey {α : Type} (f : α → Int) (t : Int) (a : α) :
    ∀ L : List α,
      (List.orderedInsert (keyLE f) a L).filter (fun x => decide (f x = t))
        = if f a = t then a :: L.filter (fun x => decide (f x = t))
          else L.filter (fun x => decide (f x = t))
  | [] => by
    by_cases h : f a = t <;> simp [List.orderedInsert, h]
  | b :: L => by
    by_cases hab : keyLE f a b
    · by_cases h : f a = t <;>
        simp [List.orderedInsert, hab, h]
    · have hba : f b < f a := by
        have := hab
        unfold keyLE at this
        omega
      by_cases h : f a = t
      · have hb : ¬ (f b = t) := by omega
        simp [List.orderedInsert, hab, h, hb,
          filter_orderedInsert_eqkey f t a L]
      · by_cases hb : f b = t <;>
          simp [List.orderedInsert, hab, h, hb,
            filter_orderedInsert_eqkey f t a L]

/-- `List.insertionSort` under a `keyLE` relation is a stable sort: the
subsequence of elements with any fixed key value is unchanged. -/
theorem filter_insertionSort_eqkey {α : Type} (f : α → Int) (t : Int) :
    ∀ L : List α,
      (List.insertionSort (keyLE f) L).filter (fun x => decide (f x = t))
        = L.filter (fun x => decide (f x = t))
  | [] => rfl
  | a :: L => by
    by_cases h : f a = t <;>
      simp [List.insertionSort, filter_orderedInsert_eqkey, h,
        filter_insertionSort_eqkey f t L]

/-- Once the three pre-`try` phases of `_run_processing` succeed, the
runner never raises: every outcome of the module body is caught. -/
theorem runProcessing_ok (path : String) (m : ProcModule)
    (hi : m.init = .ok ()) (hp : m.setPath = .ok ()) (hc : m.loadCfg = .ok ()) :
    ∃ r, runProcessing path m = .ok r := by
  unfold runProcessing
  rw [hi, hp, hc]
  by_cases he : m.enabled = false
  · simp [he]
  · simp only [he, if_false]
    cases hr : m.run with
    | ok v => exact ⟨_, rfl⟩
    | error e => cases e <;> exact ⟨_, rfl⟩

/-- Once instantiation of the signature succeeds, `_run_signature` never
raises: gate skips and match-body exceptions are all caught. -/
theorem runSignature_ok (path version : String) (s : SigDescr) (d : RDoc)
    (hi : s.init = .ok ()) : ∃ r, runSignature path version s d = .ok r := by
  unfold runSignature sigEval
  rw [hi]
  dsimp only
  repeat first
  | exact ⟨_, rfl⟩
  | split

/-- The processing loop never raises when every module's pre-`try` phases
(instantiation, path binding, configuration load) succeed. -/
theorem runMods_ok (path : String) :
    ∀ (mods : List ProcModule) (acc : RDoc) (logs : List LogEvent),
      (∀ m ∈ mods, m.init = .ok () ∧ m.setPath = .ok () ∧ m.loadCfg = .ok ()) →
      ∃ r, runMods path mods acc logs = .ok r
  | [], acc, logs, _ => ⟨(acc, logs), rfl⟩
  | m :: rest, acc, logs, h => by
    obtain ⟨hi, hp, hc⟩ := h m (List.mem_cons_self m rest)
    obtain ⟨⟨frag, lg⟩, hr⟩ := runProcessing_ok path m hi hp hc
    have hrest := fun m' hm' => h m' (List.mem_cons_of_mem m hm')
    unfold runMods
    rw [hr]
    dsimp only
    cases frag with
    | some kv =>
      obtain ⟨k, v⟩ := kv
      exact runMods_ok path rest (setKey acc k (.val v)) (logs ++ lg) hrest
    | none => exact runMods_ok path rest acc (logs ++ lg) hrest

/-- The signature loop never raises when every signature's instantiation
succeeds. -/
theorem runSigs_ok (path version : String) (results : RDoc) :
    ∀ (sigs : List SigDescr) (acc : List MatchRecord) (logs : List LogEvent),
      (∀ s ∈ sigs, s.init = .ok ()) →
      ∃ r, runSigs path version results sigs acc logs = .ok r
  | [], acc, logs, _ => ⟨(acc, logs), rfl⟩
  | s :: rest, acc, logs, h => by
    obtain ⟨⟨matched, lg⟩, hr⟩ :=
      runSignature_ok path version s results (h s (List.mem_cons_self s rest))
    have hrest := fun s' hs' => h s' (List.mem_cons_of_mem s hs')
    unfold runSigs
    rw [hr]
    dsimp only
    cases matched with
    | some m => exact runSigs_ok path version results rest (acc ++ [m]) (logs ++ lg) hrest
    | none => exact runSigs_ok path version results rest acc (logs ++ lg) hrest

/-- Whenever `_run_signature` completes without raising, it returns a
match exactly when the signature is enabled, passes both version gates,
and its match body returns a truthy value. -/
theorem runSignature_isSome_eq (path version : String) (s : SigDescr) (d : RDoc)
    (matched : Option MatchRecord) (lg : List LogEvent)
    (h : runSignature path version s d = .ok (matched, lg)) :
    matched.isSome = passesGatesAndMatches version d s := by
  unfold runSignature at h
  cases hi : s.init with
  | error e => rw [hi] at h; exact absurd h (by simp)
  | ok u =>
    rw [hi] at h
    dsimp only at h
    by_cases he : s.enabled = false
    · rw [if_pos he] at h
      simp only [Except.ok.injEq, Prod.mk.injEq] at h
      obtain ⟨h1, _⟩ := h
      subst h1
      simp [passesGatesAndMatches, he]
    · have he' : s.enabled = true := by simpa using he
      rw [if_neg he] at h
      cases hmin : minGateSkip (splitDash version) s with
      | some lgm =>
        rw [hmin] at h
        dsimp only at h
        simp only [Except.ok.injEq, Prod.mk.injEq] at h
        obtain ⟨h1, _⟩ := h
        subst h1
        simp [passesGatesAndMatches, hmin]
      | none =>
        rw [hmin] at h
        dsimp only at h
        cases hmax : maxGateSkip (splitDash version) s with
        | some lgm =>
          rw [hmax] at h
          dsimp only at h
          simp only [Except.ok.injEq, Prod.mk.injEq] at h
          obtain ⟨h1, _⟩ := h
          subst h1
          simp [passesGatesAndMatches, hmax]
        | none =>
          rw [hmax] at h
          unfold sigEval at h
          dsimp only at h
          cases hrun : s.run d with
          | ok v =>
            rw [hrun] at h
            dsimp only at h
            by_cases ht : v.truthy = true
            · rw [if_pos ht] at h
              simp only [Except.ok.injEq, Prod.mk.injEq] at h
              obtain ⟨h1, _⟩ := h
              subst h1
              simp [passesGatesAndMatches, he', hmin, hmax, hrun, ht]
            · rw [if_neg ht] at h
              simp only [Except.ok.injEq, Prod.mk.injEq] at h
              obtain ⟨h1, _⟩ := h
              subst h1
              simp [passesGatesAndMatches, he', hmin, hmax, hrun, ht]
          | error e =>
            rw [hrun] at h
            dsimp only at h
            simp only [Except.ok.injEq, Prod.mk.injEq] at h
            obtain ⟨h1, _⟩ := h
            subst h1
            simp [passesGatesAndMatches, he', hmin, hmax, hrun]

/-- The signature loop appends exactly one match per signature that passes
the gates and matches positively: the collected list grows from `acc` by
the count of such signatures. -/
theorem runSigs_length (path version : String) (results : RDoc) :
    ∀ (sigs : List SigDescr) (acc : List MatchRecord) (logs : List LogEvent)
      (res : List MatchRecord) (lgs : List LogEvent),
      runSigs path version results sigs acc logs = .ok (res, lgs) →
      res.length = acc.length + sigs.countP (passesGatesAndMatches version results)
  | [], acc, logs, res, lgs, h => by
    unfold runSigs at h
    simp only [Except.ok.injEq, Prod.mk.injEq] at h
    simp [← h.1]
  | s :: rest, acc, logs, res, lgs, h => by
    unfold runSigs at h
    cases hrs : runSignature path version s results with
    | error e => rw [hrs] at h; exact absurd h (by simp)
    | ok pr =>
      obtain ⟨matched, lg⟩ := pr
      rw [hrs] at h
      dsimp only at h
      have hch := runSignature_isSome_eq path version s results matched lg hrs
      cases matched with
      | some m =>
        have ih := runSigs_length path version results rest (acc ++ [m]) (logs ++ lg) res lgs h
        have hp : passesGatesAndMatches version results s = true := by
          simpa using hch.symm
        simp [List.countP_cons, hp] at ih ⊢
        omega
      | none =>
        have ih := runSigs_length path version results rest acc (logs ++ lg) res lgs h
        have hp : passesGatesAndMatches version results s = false := by
          simpa using hch.symm
        simp [List.countP_cons, hp] at ih ⊢
        omega

/-- Claim C1 is false as stated: a failure raised while handling a unit
does propagate when it occurs in module instantiation — here a module
whose `__init__` raises makes `Processor.run` itself raise instead of
skipping the unit and continuing. -/
theorem run_propagates_module_init_failure :
    Processor.run "path" "1.0" ⟨[badInitModule], []⟩ = .error (.other "boom") := rfl

/-- Claim C1 (amended): failures raised inside a module's analysis body or
anywhere in a signature's gating and match evaluation never propagate to
the caller of `Processor.run`; only failures in the phases executed before
the protecting `try` blocks — module instantiation, path binding,
configuration loading, signature instantiation — propagate.  So the run
returns normally whenever those pre-`try` phases succeed, whatever the
unit bodies do. -/
theorem run_ok_of_pre_phases_ok (path version : String) (reg : Registry)
    (hm : ∀ m ∈ reg.processing,
      m.init = .ok () ∧ m.setPath = .ok () ∧ m.loadCfg = .ok ())
    (hs : ∀ s ∈ reg.signatures, s.init = .ok ()) :
    ∃ r, Processor.run path version reg = .ok r := by
  obtain ⟨⟨results, logs1⟩, h1⟩ :=
    runMods_ok path (sortedModules reg.processing) [] []
      (fun m hm' => hm m ((List.mem_insertionSort (keyLE ProcModule.order)).mp hm'))
  obtain ⟨⟨sigs, logs2⟩, h2⟩ :=
    runSigs_ok path version results reg.signatures [] [] hs
  refine ⟨(setKey results "signatures" (.sigs (sortedSigs sigs)), logs1 ++ logs2), ?_⟩
  unfold Processor.run
  rw [h1]
  dsimp only
  rw [h2]

/-- Witness for the amended C1: a registry whose module body raises a
`CuckooProcessingError` and whose signature is well-behaved still yields a
normal (non-raising) run. -/
theorem run_ok_of_pre_phases_ok_witness :
    ∃ r, Processor.run "p" "0.4" ⟨[modWerr], [baseSig]⟩ = .ok r :=
  run_ok_of_pre_phases_ok "p" "0.4" ⟨[modWerr], [baseSig]⟩
    (by
      intro m hm
      simp only [List.mem_singleton] at hm
      subst hm
      exact ⟨rfl, rfl, rfl⟩)
    (by
      intro s hs
      simp only [List.mem_singleton] at hs
      subst hs
      rfl)

/-- Claim C6: the module sequence the orchestrator folds over
(`Processor.run` runs `runMods` on exactly `sortedModules reg.processing`)
is sorted by `order` non-decreasing, and for every `order` value the
modules carrying it keep their registry-supplied relative order (stable
sort, computed before any module runs). -/
theorem modules_sorted_stable (mods : List ProcModule) :
    List.Sorted (keyLE ProcModule.order) (sortedModules mods) ∧
    ∀ o : Int, (sortedModules mods).filter (fun m => decide (m.order = o))
        = mods.filter (fun m => decide (m.order = o)) :=
  ⟨List.sorted_insertionSort (keyLE ProcModule.order) mods,
   fun o => filter_insertionSort_eqkey ProcModule.order o mods⟩

/-- Claim C4: in the document returned by `Processor.run`, the list stored
under `"signatures"` is the severity-stable-sort of the matches collected
in evaluation order (`runSigs` appends them in encounter order): it is
sorted by severity non-decreasing, and for every severity value the
matches carrying it appear in their original evaluation order. -/
theorem signatures_sorted_and_stable (path version : String) (reg : Registry)
    (d : RDoc) (logs : List LogEvent)
    (h : Processor.run path version reg = .ok (d, logs)) :
    ∃ results logs1 collected logs2,
      runMods path (sortedModules reg.processing) [] [] = .ok (results, logs1) ∧
      runSigs path version results reg.signatures [] [] = .ok (collected, logs2) ∧
      getKey d "signatures" = some (.sigs (sortedSigs collected)) ∧
      List.Sorted (keyLE MatchRecord.severity) (sortedSigs collected) ∧
      (∀ t : Int, (sortedSigs collected).filter (fun m => decide (m.severity = t))
          = collected.filter (fun m => decide (m.severity = t))) := by
  unfold Processor.run at h
  cases h1 : runMods path (sortedModules reg.processing) [] [] with
  | error e => rw [h1] at h; exact absurd h (by simp)
  | ok pr1 =>
    obtain ⟨results, logs1⟩ := pr1
    rw [h1] at h
    dsimp only at h
    cases h2 : runSigs path version results reg.signatures [] [] with
    | error e => rw [h2] at h; exact absurd h (by simp)
    | ok pr2 =>
      obtain ⟨collected, logs2⟩ := pr2
      rw [h2] at h
      dsimp only at h
      simp only [Except.ok.injEq, Prod.mk.injEq] at h
      obtain ⟨hd, _⟩ := h
      refine ⟨results, logs1, collected, logs2, rfl, h2, ?_, ?_, ?_⟩
      · rw [← hd]
        exact getKey_setKey_self results "signatures" _
      · exact List.sorted_insertionSort (keyLE MatchRecord.severity) collected
      · exact fun t => filter_insertionSort_eqkey MatchRecord.severity t collected

/-- Witness for C4 on a concrete run: no modules, one matching signature. -/
theorem signatures_sorted_and_stable_witness :
    ∃ results logs1 collected logs2,
      runMods "p" (sortedModules (Registry.mk [] [baseSig]).processing) [] []
        = .ok (results, logs1) ∧
      runSigs "p" "0.4" results (Registry.mk [] [baseSig]).signatures [] []
        = .ok (collected, logs2) ∧
      getKey [("signatures",
          Entry.sigs [MatchRecord.mk "S" "desc" 3 [] .pyNone false])] "signatures"
        = some (.sigs (sortedSigs collected)) ∧
      List.Sorted (keyLE MatchRecord.severity) (sortedSigs collected) ∧
      (∀ t : Int, (sortedSigs collected).filter (fun m => decide (m.severity = t))
          = collected.filter (fun m => decide (m.severity = t))) :=
  signatures_sorted_and_stable "p" "0.4" (Registry.mk [] [baseSig])
    [("signatures", Entry.sigs [MatchRecord.mk "S" "desc" 3 [] .pyNone false])]
    [.debugRunningSignature "S", .debugMatched "p" "S"] rfl

/-- Claim C5: the length of the final `"signatures"` list equals the number
of registry signatures that passed the enabled gate and both version gates
and whose match logic returned a positive result against the merged
results document (disabled, version-skipped, raising, or negative
signatures contribute nothing). -/
theorem signatures_list_length_counts (path version : String) (reg : Registry)
    (d : RDoc) (logs : List LogEvent)
    (h : Processor.run path version reg = .ok (d, logs)) :
    ∃ results logs1 lst,
      runMods path (sortedModules reg.processing) [] [] = .ok (results, logs1) ∧
      getKey d "signatures" = some (.sigs lst) ∧
      lst.length = reg.signatures.countP (passesGatesAndMatches version results) := by
  unfold Processor.run at h
  cases h1 : runMods path (sortedModules reg.processing) [] [] with
  | error e => rw [h1] at h; exact absurd h (by simp)
  | ok pr1 =>
    obtain ⟨results, logs1⟩ := pr1
    rw [h1] at h
    dsimp only at h
    cases h2 : runSigs path version results reg.signatures [] [] with
    | error e => rw [h2] at h; exact absurd h (by simp)
    | ok pr2 =>
      obtain ⟨collected, logs2⟩ := pr2
      rw [h2] at h
      dsimp only at h
      simp only [Except.ok.injEq, Prod.mk.injEq] at h
      obtain ⟨hd, _⟩ := h
      refine ⟨results, logs1, sortedSigs collected, rfl, ?_, ?_⟩
      · rw [← hd]
        exact getKey_setKey_self results "signatures" _
      · have hlen : (sortedSigs collected).length = collected.length :=
          List.length_insertionSort (keyLE MatchRecord.severity) collected
        have hcnt := runSigs_length path version results reg.signatures [] [] collected logs2 h2
        simp only [List.length_nil, Nat.zero_add] at hcnt
        rw [hlen, hcnt]

/-- Witness for C5 on a concrete run: one matching signature, list length 1. -/
theorem signatures_list_length_counts_witness :
    ∃ results logs1 lst,
      runMods "q" (sortedModules (Registry.mk [] [baseSig]).processing) [] []
        = .ok (results, logs1) ∧
      getKey [("signatures",
          Entry.sigs [MatchRecord.mk "S" "desc" 3 [] .pyNone false])] "signatures"
        = some (.sigs lst) ∧
      lst.length
        = (Registry.mk [] [baseSig]).signatures.countP
            (passesGatesAndMatches "0.4" results) :=
  signatures_list_length_counts "q" "0.4" (Registry.mk [] [baseSig])
    [("signatures", Entry.sigs [MatchRecord.mk "S" "desc" 3 [] .pyNone false])]
    [.debugRunningSignature "S", .debugMatched "q" "S"] rfl

/-- When the minimum gate decides to skip, `_run_signature` returns no
match and logs the `Running signature` entry followed by the gate's log
entry; the match body is never consulted. -/
theorem runSignature_min_skip (path version : String) (s : SigDescr) (d : RDoc)
    (lg : LogEvent)
    (hi : s.init = .ok ()) (he : s.enabled = true)
    (hg : minGateSkip (splitDash version) s = some lg) :
    runSignature path version s d
      = .ok (Option.none, [.debugRunningSignature s.name, lg]) := by
  unfold runSignature
  rw [hi]
  dsimp only
  rw [if_neg (by simp [he]), hg]
  rfl

/-- When the minimum gate passes and the maximum gate decides to skip,
`_run_signature` returns no match and logs the maximum gate's entry. -/
theorem runSignature_max_skip (path version : String) (s : SigDescr) (d : RDoc)
    (lg : LogEvent)
    (hi : s.init = .ok ()) (he : s.enabled = true)
    (hgmin : minGateSkip (splitDash version) s = Option.none)
    (hg : maxGateSkip (splitDash version) s = some lg) :
    runSignature path version s d
      = .ok (Option.none, [.debugRunningSignature s.name, lg]) := by
  unfold runSignature
  rw [hi]
  dsimp only
  rw [if_neg (by simp [he]), hgmin, hg]
  rfl

/-- When both version gates pass, `_run_signature` is exactly the
evaluation of the match body. -/
theorem runSignature_gates_pass (path version : String) (s : SigDescr) (d : RDoc)
    (hi : s.init = .ok ()) (he : s.enabled = true)
    (h1 : minGateSkip (splitDash version) s = Option.none)
    (h2 : maxGateSkip (splitDash version) s = Option.none) :
    runSignature path version s d = sigEval path s d := by
  unfold runSignature
  rw [hi]
  dsimp only
  rw [if_neg (by simp [he]), h1, h2]

/-- Claim C2: an enabled signature declaring minimum `"2.0"` (and no
maximum): under running version `"1.5"` the runner returns nothing —
whatever its match body would do — logging the older-version debug
message; under running version `"2.1"` the minimum gate does not skip and
the run is exactly the evaluation of the match body (`sigEval`). -/
theorem min_two_skips_low_passes_high (path : String) (s : SigDescr) (d : RDoc)
    (hi : s.init = .ok ()) (he : s.enabled = true)
    (hmin : s.minimum = "2.0") (hmax : s.maximum = "") :
    runSignature path "1.5" s d
      = .ok (Option.none,
          [.debugRunningSignature s.name, .debugOlderVersion s.name "2.0"]) ∧
    runSignature path "2.1" s d = sigEval path s d := by
  constructor
  · refine runSignature_min_skip path "1.5" s d _ hi he ?_
    unfold minGateSkip
    rw [hmin]
    rfl
  · refine runSignature_gates_pass path "2.1" s d hi he ?_ ?_
    · unfold minGateSkip
      rw [hmin]
      rfl
    · unfold maxGateSkip
      rw [hmax]
      rfl

/-- Witness for C2 at a concrete signature with minimum `"2.0"` whose
match body returns `True`. -/
theorem min_two_skips_low_passes_high_witness :
    runSignature "p" "1.5" (setBounds baseSig "2.0" "") []
      = .ok (Option.none,
          [.debugRunningSignature "S", .debugOlderVersion "S" "2.0"]) ∧
    runSignature "p" "2.1" (setBounds baseSig "2.0" "") []
      = sigEval "p" (setBounds baseSig "2.0" "") [] :=
  min_two_skips_low_passes_high "p" (setBounds baseSig "2.0" "") [] rfl rfl rfl rfl

/-- Claim C7: an enabled signature declaring the unparseable minimum
`"abc"` always returns nothing — for every running version and whatever
its match logic would return — logging the parse failure at debug
severity instead of propagating it. -/
theorem unparseable_min_always_skips (path version : String) (s : SigDescr)
    (d : RDoc)
    (hi : s.init = .ok ()) (he : s.enabled = true) (hmin : s.minimum = "abc") :
    runSignature path version s d
      = .ok (Option.none,
          [.debugRunningSignature s.name, .debugWrongMinor s.name]) ∧
    (LogEvent.debugWrongMinor s.name).level = .debug := by
  refine ⟨runSignature_min_skip path version s d _ hi he ?_, rfl⟩
  unfold minGateSkip
  rw [hmin]
  rw [if_pos (by decide)]
  cases hpv : parseSV (splitDash version) <;>
    simp [hpv, show parseSV (splitDash "abc") = Option.none from rfl]

/-- Witness for C7 at a concrete signature whose match body returns
`True`: it is still skipped. -/
theorem unparseable_min_always_skips_witness :
    runSignature "p" "0.4" (setBounds baseSig "abc" "") []
      = .ok (Option.none,
          [.debugRunningSignature "S", .debugWrongMinor "S"]) ∧
    (LogEvent.debugWrongMinor "S").level = .debug :=
  unparseable_min_always_skips "p" "0.4" (setBounds baseSig "abc" "") [] rfl rfl rfl

/-- Claim C9: declared version bounds are themselves normalized by
discarding any suffix after `-` before parsing, like the running version:
an enabled signature with minimum `"2.0-beta"` is compared against `2.0` —
skipped under running version `"1.5"` with the older-version log (not the
parse-failure log), evaluated normally under `"2.1"` — and one with
maximum `"2.0-beta"` is compared against `2.0` — evaluated normally under
`"1.5"`, skipped under `"2.1"` with the newer-version log. -/
theorem bounds_split_dash_before_parse (path : String) (s : SigDescr) (d : RDoc)
    (hi : s.init = .ok ()) (he : s.enabled = true) :
    runSignature path "1.5" (setBounds s "2.0-beta" "") d
      = .ok (Option.none,
          [.debugRunningSignature s.name, .debugOlderVersion s.name "2.0-beta"]) ∧
    runSignature path "2.1" (setBounds s "2.0-beta" "") d
      = sigEval path (setBounds s "2.0-beta" "") d ∧
    runSignature path "2.1" (setBounds s "" "2.0-beta") d
      = .ok (Option.none,
          [.debugRunningSignature s.name, .debugNewerVersion s.name "2.0-beta"]) ∧
    runSignature path "1.5" (setBounds s "" "2.0-beta") d
      = sigEval path (setBounds s "" "2.0-beta") d := by
  refine ⟨?_, ?_, ?_, ?_⟩
  · exact runSignature_min_skip path "1.5" (setBounds s "2.0-beta" "") d _ hi he rfl
  · exact runSignature_gates_pass path "2.1" (setBounds s "2.0-beta" "") d hi he rfl rfl
  · exact runSignature_max_skip path "2.1" (setBounds s "" "2.0-beta") d _ hi he rfl rfl
  · exact runSignature_gates_pass path "1.5" (setBounds s "" "2.0-beta") d hi he rfl rfl

/-- Witness for C9 at a concrete signature. -/
theorem bounds_split_dash_before_parse_witness :
    runSignature "p" "1.5" (setBounds baseSig "2.0-beta" "") []
      = .ok (Option.none,
          [.debugRunningSignature "S", .debugOlderVersion "S" "2.0-beta"]) ∧
    runSignature "p" "2.1" (setBounds baseSig "2.0-beta" "") []
      = sigEval "p" (setBounds baseSig "2.0-beta" "") [] ∧
    runSignature "p" "2.1" (setBounds baseSig "" "2.0-beta") []
      = .ok (Option.none,
          [.debugRunningSignature "S", .debugNewerVersion "S" "2.0-beta"]) ∧
    runSignature "p" "1.5" (setBounds baseSig "" "2.0-beta") []
      = sigEval "p" (setBounds baseSig "" "2.0-beta") [] :=
  bounds_split_dash_before_parse "p" baseSig [] rfl rfl

/-- Claim C3: when two enabled, successful processing modules declare the
same result key and run in sorted order (here `m1` then `m2`, with
`m1.order ≤ m2.order`), the final document holds the later module's value
under that key — the earlier value is silently overwritten. -/
theorem same_key_last_sorted_writer_wins (path version : String)
    (m1 m2 : ProcModule) (v1 v2 : Value)
    (horder : m1.order ≤ m2.order)
    (h1i : m1.init = .ok ()) (h1p : m1.setPath = .ok ()) (h1c : m1.loadCfg = .ok ())
    (h1e : m1.enabled = true) (h1r : m1.run = .ok v1)
    (h2i : m2.init = .ok ()) (h2p : m2.setPath = .ok ()) (h2c : m2.loadCfg = .ok ())
    (h2e : m2.enabled = true) (h2r : m2.run = .ok v2)
    (hkey : m1.key = m2.key) (hks : ¬ (m2.key = "signatures")) :
    ∃ d logs, Processor.run path version ⟨[m1, m2], []⟩ = .ok (d, logs) ∧
      getKey d m2.key = some (.val v2) := by
  have hp1 : runProcessing path m1
      = .ok (some (m1.key, v1), [.debugExecutedModule m1.name path]) := by
    unfold runProcessing
    rw [h1i, h1p, h1c]
    dsimp only
    rw [if_neg (by simp [h1e]), h1r]
  have hp2 : runProcessing path m2
      = .ok (some (m2.key, v2), [.debugExecutedModule m2.name path]) := by
    unfold runProcessing
    rw [h2i, h2p, h2c]
    dsimp only
    rw [if_neg (by simp [h2e]), h2r]
  have hsort : sortedModules [m1, m2] = [m1, m2] := by
    unfold sortedModules
    simp [List.insertionSort, List.orderedInsert, keyLE, horder]
  have hm : runMods path [m1, m2] [] []
      = .ok ([(m2.key, Entry.val v2)],
          [.debugExecutedModule m1.name path, .debugExecutedModule m2.name path]) := by
    simp [runMods, hp1, hp2, setKey, hkey]
  refine ⟨[(m2.key, Entry.val v2), ("signatures", Entry.sigs [])],
      [.debugExecutedModule m1.name path, .debugExecutedModule m2.name path],
      ?_, ?_⟩
  · unfold Processor.run
    dsimp only
    rw [hsort, hm]
    dsimp only
    unfold runSigs
    dsimp only
    simp [sortedSigs, List.insertionSort, setKey, hks]
  · simp [getKey]

/-- Witness for C3: two concrete modules with orders 1 and 2, both
writing key `shared`; the final value is the second module's. -/
theorem same_key_last_sorted_writer_wins_witness :
    ∃ d logs, Processor.run "p" "0.4" ⟨[modW1, modW2], []⟩ = .ok (d, logs) ∧
      getKey d modW2.key = some (.val (.pyInt 2)) :=
  same_key_last_sorted_writer_wins "p" "0.4" modW1 modW2 (.pyInt 1) (.pyInt 2)
    (by decide) rfl rfl rfl rfl rfl rfl rfl rfl rfl rfl rfl (by decide)

/-- Claim C8: an enabled module whose analysis body raises the declared
`CuckooProcessingError` makes `_run_processing` log at warning severity
and return nothing, so it contributes no key to the accumulated document,
and the processing loop continues with the remaining sorted modules
unchanged. -/
theorem processing_error_isolated (path : String) (m : ProcModule)
    (rest : List ProcModule) (acc : RDoc) (logs : List LogEvent) (msg : String)
    (hi : m.init = .ok ()) (hp : m.setPath = .ok ()) (hc : m.loadCfg = .ok ())
    (he : m.enabled = true) (hr : m.run = .error (.cuckooProcessingError msg)) :
    runProcessing path m = .ok (Option.none, [.warnProcessingError m.name msg]) ∧
    (LogEvent.warnProcessingError m.name msg).level = .warning ∧
    runMods path (m :: rest) acc logs
      = runMods path rest acc (logs ++ [.warnProcessingError m.name msg]) := by
  have h1 : runProcessing path m
      = .ok (Option.none, [.warnProcessingError m.name msg]) := by
    unfold runProcessing
    rw [hi, hp, hc]
    dsimp only
    rw [if_neg (by simp [he]), hr]
  refine ⟨h1, rfl, ?_⟩
  conv_lhs => rw [runMods]
  rw [h1]

/-- Witness for C8: the failing module is followed by another module, and
the loop continues into it. -/
theorem processing_error_isolated_witness :
    runProcessing "p" modWerr
      = .ok (Option.none, [.warnProcessingError "ME" "bad input"]) ∧
    (LogEvent.warnProcessingError "ME" "bad input").level = .warning ∧
    runMods "p" [modWerr, modWnone] [] []
      = runMods "p" [modWnone] [] ([] ++ [.warnProcessingError "ME" "bad input"]) :=
  processing_error_isolated "p" modWerr [modWnone] [] [] "bad input"
    rfl rfl rfl rfl rfl

/-- Claim C10: an enabled module whose analysis body succeeds with a falsy
value (such as `None`) still yields the single-entry fragment
`{key: value}` — the `if result:` merge test sees the nonempty fragment
dict, not the falsy value — so the key appears in the final document bound
to that falsy value. -/
theorem falsy_data_still_merged (path version : String) (m : ProcModule)
    (v : Value)
    (hi : m.init = .ok ()) (hp : m.setPath = .ok ()) (hc : m.loadCfg = .ok ())
    (he : m.enabled = true) (hr : m.run = .ok v) (hf : v.truthy = false)
    (hks : ¬ (m.key = "signatures")) :
    runProcessing path m = .ok (some (m.key, v), [.debugExecutedModule m.name path]) ∧
    ∃ d logs, Processor.run path version ⟨[m], []⟩ = .ok (d, logs) ∧
      getKey d m.key = some (.val v) := by
  have h1 : runProcessing path m
      = .ok (some (m.key, v), [.debugExecutedModule m.name path]) := by
    unfold runProcessing
    rw [hi, hp, hc]
    dsimp only
    rw [if_neg (by simp [he]), hr]
  have hm : runMods path [m] [] []
      = .ok ([(m.key, Entry.val v)], [.debugExecutedModule m.name path]) := by
    unfold runMods
    rw [h1]
    dsimp only
    unfold runMods
    rfl
  refine ⟨h1, [(m.key, Entry.val v), ("signatures", Entry.sigs [])],
      [.debugExecutedModule m.name path], ?_, ?_⟩
  · unfold Processor.run
    dsimp only
    rw [show sortedModules [m] = [m] from rfl, hm]
    dsimp only
    unfold runSigs
    dsimp only
    simp [sortedSigs, List.insertionSort, setKey, hks]
  · simp [getKey]

/-- Witness for C10: a concrete module returning `None` still binds its
key to `None` in the final document. -/
theorem falsy_data_still_merged_witness :
    runProcessing "p" modWnone
      = .ok (some (modWnone.key, .pyNone), [.debugExecutedModule "MN" "p"]) ∧
    ∃ d logs, Processor.run "p" "0.4" ⟨[modWnone], []⟩ = .ok (d, logs) ∧
      getKey d modWnone.key = some (.val .pyNone) :=
  falsy_data_still_merged "p" "0.4" modWnone .pyNone
    rfl rfl rfl rfl rfl rfl (by decide)
